import Mathlib

/-!
Verification development for the SSE stream decoder of the
BV-BRC-Copilot-API test client.

The decoder lives in `test_streaming.py`:
  - `StreamingTester._parse_sse_stream` accumulates response chunks into a
    string buffer and splits off complete newline-terminated lines;
  - `StreamingTester._process_sse_line` classifies each logical line
    (blank, event field, data field, comment, unrecognized);
  - `StreamingTester._handle_json_data` dispatches a successfully parsed
    JSON value on the keys content, message, error.

Everything below is a shallow embedding of that code over `List Char`.
Python strings are modelled as `List Char`; the standard-library function
`json.loads` is modelled by `loads`, a recursive-descent parser of the
JSON grammar accepted by CPython's `json` module in its default (strict)
configuration: JSON whitespace, objects, arrays, strings with escape
sequences and rejection of raw control characters, numbers, the literals
true / false / null, and the CPython extensions NaN, Infinity, -Infinity.
Non-integer numbers are represented by their lexeme, since no property
below depends on float arithmetic.  Astral-plane characters written as
surrogate pairs are combined as CPython does; a lone surrogate escape is
mapped to a default character, a corner outside the properties below.

Observable behaviour (console printing in the source) is modelled as the
emission of `SseEvent` values, following the event vocabulary the code's
branches realize.  A Python exception escaping the parsing loop (the
`TypeError` raised by a membership test on a non-container) is modelled by
`Option.none` at the line level and by the `DecState.failed` state at the
stream level: the source's `try` block around the chunk loop stops all
further processing once an exception is raised.
-/

/-- JSON values as produced by the model of `json.loads`.  Objects keep
their members in source order; CPython returns a `dict`, and every use in
the code under study (key-membership tests) is insensitive to that
difference.  `numNonInt` carries the lexeme of a non-integer numeric
literal (floats are out of scope; nothing below inspects their value). -/
inductive Json where
  | null : Json
  | bool (b : Bool) : Json
  | num (n : Int) : Json
  | numNonInt (lexeme : List Char) : Json
  | str (s : List Char) : Json
  | arr (elems : List Json) : Json
  | obj (members : List (List Char × Json)) : Json

/-- Characters treated as whitespace by Python's `str.strip` /
`str.isspace` in the ASCII range (the inputs of interest here). -/
def pyIsSpace (c : Char) : Bool :=
  c == ' ' || c == '\t' || c == '\n' || c == '\r' || c == '\x0b' || c == '\x0c'

/-- Model of Python `s.lstrip()`. -/
def pyLstrip (cs : List Char) : List Char := cs.dropWhile pyIsSpace

/-- Model of Python `s.rstrip()`. -/
def pyRstrip (cs : List Char) : List Char :=
  (cs.reverse.dropWhile pyIsSpace).reverse

/-- Model of Python `s.strip()`. -/
def pyStrip (cs : List Char) : List Char := pyRstrip (pyLstrip cs)

/-- Model of Python `s.rstrip('\r')`: every trailing carriage return is
removed; carriage returns elsewhere are untouched. -/
def pyRstripCR (cs : List Char) : List Char :=
  (cs.reverse.dropWhile (fun c => c == '\r')).reverse

/-- Model of Python `s.startswith(p)`. -/
def pyStartsWith (p cs : List Char) : Bool := List.isPrefixOf p cs

/-- Model of Python `s.replace('\\n', '\n')`: each two-character sequence
backslash-n is replaced, left to right, by a newline character. -/
def pyReplaceBSN : List Char → List Char
  | [] => []
  | '\\' :: 'n' :: rest => '\n' :: pyReplaceBSN rest
  | c :: rest => c :: pyReplaceBSN rest

/-- `true` when the string contains no two-character backslash-n
sequence, i.e. when `pyReplaceBSN` leaves it unchanged. -/
def bsnFree : List Char → Bool
  | [] => true
  | '\\' :: 'n' :: _ => false
  | _ :: rest => bsnFree rest

/-- Model of Python `needle in haystack` for strings: contiguous
substring test. -/
def pySubstr (needle : List Char) : List Char → Bool
  | [] => needle.isEmpty
  | c :: rest => pyStartsWith needle (c :: rest) || pySubstr needle rest

/-- JSON whitespace (the only characters `json.loads` skips between
tokens): space, tab, newline, carriage return. -/
def jsonWs (c : Char) : Bool :=
  c == ' ' || c == '\t' || c == '\n' || c == '\r'

/-- Skip JSON whitespace. -/
def skipWs (cs : List Char) : List Char := cs.dropWhile jsonWs

/-- Value of one hexadecimal digit. -/
def hexVal (c : Char) : Option Nat :=
  if '0' ≤ c ∧ c ≤ '9' then some (c.toNat - '0'.toNat)
  else if 'a' ≤ c ∧ c ≤ 'f' then some (c.toNat - 'a'.toNat + 10)
  else if 'A' ≤ c ∧ c ≤ 'F' then some (c.toNat - 'A'.toNat + 10)
  else none

/-- Value of a four-digit hexadecimal escape. -/
def hex4 (h1 h2 h3 h4 : Char) : Option Nat := do
  let a ← hexVal h1
  let b ← hexVal h2
  let c ← hexVal h3
  let d ← hexVal h4
  pure (((a * 16 + b) * 16 + c) * 16 + d)

/-- Prepend a character to the string component of a string-parse
result. -/
def strCons (c : Char) (o : Option (List Char × List Char)) :
    Option (List Char × List Char) :=
  o.map (fun p => (c :: p.1, p.2))

/-- Fuel-indexed body of `parseStr`; structurally recursive on the fuel
so that it evaluates by kernel reduction.  Every recursive call consumes
at least one input character, so fuel `length + 1` always suffices. -/
def parseStrF : Nat → List Char → Option (List Char × List Char)
  | 0, _ => none
  | _ + 1, [] => none
  | _ + 1, '"' :: rest => some ([], rest)
  | fuel + 1, '\\' :: '"' :: r => strCons '"' (parseStrF fuel r)
  | fuel + 1, '\\' :: '\\' :: r => strCons '\\' (parseStrF fuel r)
  | fuel + 1, '\\' :: '/' :: r => strCons '/' (parseStrF fuel r)
  | fuel + 1, '\\' :: 'b' :: r => strCons (Char.ofNat 8) (parseStrF fuel r)
  | fuel + 1, '\\' :: 'f' :: r => strCons (Char.ofNat 12) (parseStrF fuel r)
  | fuel + 1, '\\' :: 'n' :: r => strCons '\n' (parseStrF fuel r)
  | fuel + 1, '\\' :: 'r' :: r => strCons '\r' (parseStrF fuel r)
  | fuel + 1, '\\' :: 't' :: r => strCons '\t' (parseStrF fuel r)
  | fuel + 1, '\\' :: 'u' :: h1 :: h2 :: h3 :: h4 :: r =>
    (match hex4 h1 h2 h3 h4 with
     | none => none
     | some n =>
       if 0xD800 ≤ n ∧ n < 0xDC00 then
         match r with
         | '\\' :: 'u' :: g1 :: g2 :: g3 :: g4 :: r2 =>
           (match hex4 g1 g2 g3 g4 with
            | some m =>
              if 0xDC00 ≤ m ∧ m < 0xE000 then
                strCons (Char.ofNat (0x10000 + (n - 0xD800) * 0x400 + (m - 0xDC00)))
                  (parseStrF fuel r2)
              else strCons (Char.ofNat n) (parseStrF fuel r)
            | none => strCons (Char.ofNat n) (parseStrF fuel r))
         | _ => strCons (Char.ofNat n) (parseStrF fuel r)
       else strCons (Char.ofNat n) (parseStrF fuel r))
  | _ + 1, '\\' :: _ => none
  | fuel + 1, c :: rest =>
    if c.toNat < 32 then none else strCons c (parseStrF fuel rest)

/-- Parse the body of a JSON string literal (the opening quote already
consumed), returning the decoded characters and the remaining input.
Mirrors CPython's strict scanner: raw control characters below 0x20 are
rejected, the eight simple escapes and the \u escape are recognized, and
a high-surrogate escape immediately followed by a low-surrogate escape is
combined into one character. -/
def parseStr (cs : List Char) : Option (List Char × List Char) :=
  parseStrF (cs.length + 1) cs

/-- Decimal value of a digit string. -/
def digitsToNat (ds : List Char) : Nat :=
  ds.foldl (fun a c => a * 10 + (c.toNat - '0'.toNat)) 0

/-- Finish scanning a numeric literal after its integer digits: optional
fraction, optional exponent, exactly the regular expression CPython's
`json` scanner uses.  An integer literal yields `Json.num`; any literal
with a fraction or exponent yields `Json.numNonInt` carrying its
lexeme. -/
def finishNum (neg : Bool) (intDs : List Char) (rest : List Char) :
    Option (Json × List Char) :=
  let fracP :=
    match rest with
    | '.' :: r =>
      let ds := r.takeWhile Char.isDigit
      if ds.isEmpty then (([] : List Char), rest)
      else ('.' :: ds, r.dropWhile Char.isDigit)
    | _ => (([] : List Char), rest)
  let expP :=
    match fracP.2 with
    | e :: r =>
      if e = 'e' ∨ e = 'E' then
        let sgnP :=
          match r with
          | s :: rr => if s = '+' ∨ s = '-' then ([s], rr) else (([] : List Char), r)
          | [] => (([] : List Char), r)
        let ds := sgnP.2.takeWhile Char.isDigit
        if ds.isEmpty then (([] : List Char), fracP.2)
        else (e :: (sgnP.1 ++ ds), sgnP.2.dropWhile Char.isDigit)
      else (([] : List Char), fracP.2)
    | [] => (([] : List Char), fracP.2)
  if fracP.1.isEmpty ∧ expP.1.isEmpty then
    let n : Int := Int.ofNat (digitsToNat intDs)
    some (Json.num (if neg then -n else n), expP.2)
  else
    some (Json.numNonInt ((if neg then ['-'] else []) ++ intDs ++ fracP.1 ++ expP.1),
      expP.2)

/-- Scan a numeric literal: optional minus sign, then either the single
digit 0 or a nonzero digit followed by digits (leading zeros rejected,
as in the JSON grammar), then fraction and exponent. -/
def parseNum (cs : List Char) : Option (Json × List Char) :=
  let signP :=
    match cs with
    | '-' :: r => (true, r)
    | _ => (false, cs)
  match signP.2 with
  | '0' :: r => finishNum signP.1 ['0'] r
  | c :: r =>
    if c.isDigit then
      finishNum signP.1 (c :: r.takeWhile Char.isDigit) (r.dropWhile Char.isDigit)
    else none
  | [] => none

/-- Recursion mode of the JSON value scanner: a value, the members of an
object (after its opening brace, first member expected), or the elements
of an array (after its opening bracket, first element expected).  The
accumulators hold the members or elements already scanned. -/
inductive PMode where
  | val : PMode
  | members (acc : List (List Char × Json)) : PMode
  | elems (acc : List Json) : PMode

/-- Fuel-indexed JSON scanner, the core of the model of `json.loads`.
Structurally recursive on the fuel so that it evaluates by kernel
reduction; `loads` supplies fuel that always suffices because every
recursive call consumes at least one input character. -/
def parseF : Nat → PMode → List Char → Option (Json × List Char)
  | 0, _, _ => none
  | fuel + 1, PMode.val, cs =>
    match cs with
    | '{' :: rest =>
      (match skipWs rest with
       | '}' :: r => some (Json.obj [], r)
       | r => parseF fuel (PMode.members []) r)
    | '[' :: rest =>
      (match skipWs rest with
       | ']' :: r => some (Json.arr [], r)
       | r => parseF fuel (PMode.elems []) r)
    | '"' :: rest => (parseStr rest).map (fun p => (Json.str p.1, p.2))
    | 't' :: 'r' :: 'u' :: 'e' :: rest => some (Json.bool true, rest)
    | 'f' :: 'a' :: 'l' :: 's' :: 'e' :: rest => some (Json.bool false, rest)
    | 'n' :: 'u' :: 'l' :: 'l' :: rest => some (Json.null, rest)
    | 'N' :: 'a' :: 'N' :: rest => some (Json.numNonInt ['N', 'a', 'N'], rest)
    | 'I' :: 'n' :: 'f' :: 'i' :: 'n' :: 'i' :: 't' :: 'y' :: rest =>
      some (Json.numNonInt ("Infinity").data, rest)
    | '-' :: 'I' :: 'n' :: 'f' :: 'i' :: 'n' :: 'i' :: 't' :: 'y' :: rest =>
      some (Json.numNonInt ("-Infinity").data, rest)
    | _ => parseNum cs
  | fuel + 1, PMode.members acc, cs =>
    match cs with
    | '"' :: rest =>
      (match parseStr rest with
       | none => none
       | some (k, r1) =>
         match skipWs r1 with
         | ':' :: r3 =>
           (match parseF fuel PMode.val (skipWs r3) with
            | none => none
            | some (v, r4) =>
              match skipWs r4 with
              | ',' :: r6 => parseF fuel (PMode.members (acc ++ [(k, v)])) (skipWs r6)
              | '}' :: r6 => some (Json.obj (acc ++ [(k, v)]), r6)
              | _ => none)
         | _ => none)
    | _ => none
  | fuel + 1, PMode.elems acc, cs =>
    match parseF fuel PMode.val cs with
    | none => none
    | some (v, r1) =>
      match skipWs r1 with
      | ']' :: r3 => some (Json.arr (acc ++ [v]), r3)
      | ',' :: r3 => parseF fuel (PMode.elems (acc ++ [v])) (skipWs r3)
      | _ => none

/-- Model of `json.loads`: skip leading whitespace, scan one value,
require only whitespace to remain.  `none` models `JSONDecodeError`. -/
def loads (cs : List Char) : Option Json :=
  match parseF (cs.length + 1) PMode.val (skipWs cs) with
  | some (v, rest) => if (skipWs rest).isEmpty then some v else none
  | none => none

/-- The Decoded Events the decoder can emit, one per observable output of
`_process_sse_line` / `_handle_json_data`.  A comment line produces no
output in the source (its branch is `pass`), so there is no comment
constructor; a successfully parsed JSON value printed by
`_handle_json_data` (on any of its four branches) is a
`structuredPayload`. -/
inductive SseEvent where
  | eventName (name : List Char) : SseEvent
  | terminator : SseEvent
  | structuredPayload (value : Json) : SseEvent
  | textPayload (text : List Char) : SseEvent
  | rawLine (line : List Char) : SseEvent

/-- Model of the Python membership test `key in data` as it behaves on
each value `json.loads` can return: key lookup on a dict, element
equality on a list, substring test on a str, and a `TypeError` (`none`)
on int, float, bool and None. -/
def pyContains (key : List Char) : Json → Option Bool
  | Json.obj kvs => some (kvs.any (fun kv => kv.1 = key))
  | Json.arr xs =>
    some (xs.any (fun v => match v with
      | Json.str s => s = key
      | _ => false))
  | Json.str s => some (pySubstr key s)
  | _ => none

/-- Model of `StreamingTester._handle_json_data`: test the keys content,
message, error in order; the first hit subscripts the value (which
raises `TypeError`, i.e. `none`, unless the value is a dict) and prints;
otherwise the value is printed via `json.dumps`.  Every non-raising path
prints the parsed value exactly once, modelled as one
`structuredPayload` event. -/
def handleJsonData (d : Json) : Option SseEvent :=
  match pyContains (("content").data) d with
  | none => none
  | some true =>
    (match d with
     | Json.obj _ => some (SseEvent.structuredPayload d)
     | _ => none)
  | some false =>
    match pyContains (("message").data) d with
    | none => none
    | some true =>
      (match d with
       | Json.obj _ => some (SseEvent.structuredPayload d)
       | _ => none)
    | some false =>
      match pyContains (("error").data) d with
      | none => none
      | some true =>
        (match d with
         | Json.obj _ => some (SseEvent.structuredPayload d)
         | _ => none)
      | some false => some (SseEvent.structuredPayload d)

/-- Whether a JSON value is an object (a Python dict). -/
def isJsonObject : Json → Bool
  | Json.obj _ => true
  | _ => false

/-- The payload of a `data:` line: drop the five prefix characters, then
drop one leading space if present — exactly the source's
`raw = line[5:]` followed by `if raw.startswith(' '): raw = raw[1:]`. -/
def dataPayload (line : List Char) : List Char :=
  let raw := line.drop 5
  if raw.head? = some ' ' then raw.drop 1 else raw

/-- Model of `StreamingTester._process_sse_line`, acting on one logical
line (trailing carriage returns already removed by the caller).  The
result is the list of events the line emits, or `none` when processing
raises (the `TypeError` inside `_handle_json_data`).  Branch order is the
source's: blank, `event:`, `data:` (terminator check, backslash-n
unescaping, JSON parse attempt with plain-text fallback), comment,
unrecognized. -/
def processLine (line : List Char) : Option (List SseEvent) :=
  if (pyStrip line).isEmpty then some []
  else if pyStartsWith (("event:").data) line then
    some [SseEvent.eventName (pyStrip (line.drop 6))]
  else if pyStartsWith (("data:").data) line then
    (if dataPayload line = ("[DONE]").data then some [SseEvent.terminator]
     else
       match loads (pyReplaceBSN (dataPayload line)) with
       | some parsed => Option.map (fun e => [e]) (handleJsonData parsed)
       | none => some [SseEvent.textPayload (pyReplaceBSN (dataPayload line))])
  else if pyStartsWith ((":").data) line then some []
  else some [SseEvent.rawLine line]

/-- Model of Python `buffer.split('\n', 1)` restricted to the case the
loop guard `'\n' in buffer` has checked: `some (line, rest)` when the
buffer contains a newline, `none` otherwise. -/
def splitFirstNL : List Char → Option (List Char × List Char)
  | [] => none
  | c :: rest =>
    if c = '\n' then some ([], rest)
    else
      match splitFirstNL rest with
      | none => none
      | some (l, r) => some (c :: l, r)

/-- State of one stream parse: either running with the current buffer, or
dead after an exception escaped the processing loop (the source's
`except` clause stops all further chunk processing; the local buffer is
gone). -/
inductive DecState where
  | running (buf : List Char) : DecState
  | failed : DecState

/-- Fuel-indexed model of the source's inner loop
`while '\n' in buffer: line, buffer = buffer.split('\n', 1); ...`:
repeatedly split off the first complete line, strip its trailing
carriage returns, process it, and concatenate the emitted events; stop
with the remaining buffer once no newline is left, or in the failed
state when a line raises.  Structurally recursive on the fuel so that it
evaluates by kernel reduction; each iteration consumes the line and its
newline, so fuel `length` always suffices. -/
def consumeF : Nat → List Char → DecState × List SseEvent
  | 0, buf => (DecState.running buf, [])
  | fuel + 1, buf =>
    match splitFirstNL buf with
    | none => (DecState.running buf, [])
    | some (line, rest) =>
      match processLine (pyRstripCR line) with
      | none => (DecState.failed, [])
      | some evs =>
        let p := consumeF fuel rest
        (p.1, evs ++ p.2)

/-- Process every complete line currently in the buffer. -/
def consume (buf : List Char) : DecState × List SseEvent :=
  consumeF buf.length buf

/-- Model of one iteration of the chunk loop in
`_parse_sse_stream`: a falsy (empty) chunk is skipped; otherwise the
chunk is appended to the buffer and all complete lines are processed.
After a raised exception the loop is no longer running, so feeding a
dead state does nothing. -/
def feed (st : DecState) (chunk : List Char) : DecState × List SseEvent :=
  match st with
  | DecState.failed => (DecState.failed, [])
  | DecState.running buf =>
    if chunk.isEmpty then (DecState.running buf, [])
    else consume (buf ++ chunk)

/-- Feed a list of chunks in order, concatenating the emitted events. -/
def feedAll (st : DecState) : List (List Char) → DecState × List SseEvent
  | [] => (st, [])
  | c :: rest =>
    let p := feed st c
    let q := feedAll p.1 rest
    (q.1, p.2 ++ q.2)

/-- Decode a whole input from the initial state (fresh empty buffer). -/
def decode (input : List Char) : DecState × List SseEvent :=
  feed (DecState.running []) input

/-- Continuation of a stream parse: from the pair returned for an earlier
part of the input, run the rest of the input.  Used to state how
`consume` composes across an arbitrary split point. -/
def consumeFrom (p : DecState × List SseEvent) (extra : List Char) :
    DecState × List SseEvent :=
  match p.1 with
  | DecState.failed => (DecState.failed, p.2)
  | DecState.running rem =>
    let q := consume (rem ++ extra)
    (q.1, p.2 ++ q.2)

/-- A successful first-newline split decomposes the buffer, and the split
line contains no newline. -/
theorem splitFirstNL_eq : ∀ cs l r : List Char,
    splitFirstNL cs = some (l, r) → cs = l ++ '\n' :: r ∧ '\n' ∉ l := by
  intro cs
  induction cs with
  | nil => intro l r h; simp [splitFirstNL] at h
  | cons c rest ih =>
    intro l r h
    by_cases hc : c = '\n'
    · subst hc
      simp [splitFirstNL] at h
      obtain ⟨hl, hr⟩ := h
      subst hl; subst hr
      simp
    · simp only [splitFirstNL, if_neg hc] at h
      cases hrec : splitFirstNL rest with
      | none => rw [hrec] at h; simp at h
      | some p =>
        rw [hrec] at h
        obtain ⟨l', r'⟩ := p
        simp at h
        obtain ⟨hl, hr⟩ := h
        obtain ⟨h1, h2⟩ := ih l' r' hrec
        subst hl; subst hr
        constructor
        · rw [h1]; simp
        · simp [List.mem_cons]
          exact ⟨fun hne => hc hne.symm, h2⟩

/-- The first-newline split fails exactly when the buffer has no
newline. -/
theorem splitFirstNL_none_iff : ∀ cs : List Char,
    splitFirstNL cs = none ↔ '\n' ∉ cs := by
  intro cs
  induction cs with
  | nil => simp [splitFirstNL]
  | cons c rest ih =>
    by_cases hc : c = '\n'
    · subst hc; simp [splitFirstNL]
    · simp only [splitFirstNL, if_neg hc, List.mem_cons]
      cases hrec : splitFirstNL rest with
      | none =>
        have hn : '\n' ∉ rest := ih.mp hrec
        constructor
        · intro _ hor
          rcases hor with h1 | h2
          · exact hc h1.symm
          · exact hn h2
        · intro _; rfl
      | some p =>
        obtain ⟨l, r⟩ := p
        have hmem : '\n' ∈ rest := by
          by_contra hn
          rw [ih.mpr hn] at hrec
          exact Option.noConfusion hrec
        constructor
        · intro habs; exact Option.noConfusion habs
        · intro hnot; exact absurd (Or.inr hmem) hnot

/-- Splitting off the first line commutes with appending further input. -/
theorem splitFirstNL_append_some : ∀ buf l r extra : List Char,
    splitFirstNL buf = some (l, r) →
    splitFirstNL (buf ++ extra) = some (l, r ++ extra) := by
  intro buf
  induction buf with
  | nil => intro l r extra h; simp [splitFirstNL] at h
  | cons c rest ih =>
    intro l r extra h
    by_cases hc : c = '\n'
    · subst hc
      simp [splitFirstNL] at h
      obtain ⟨hl, hr⟩ := h
      subst hl; subst hr
      simp [splitFirstNL]
    · simp only [splitFirstNL, if_neg hc] at h
      cases hrec : splitFirstNL rest with
      | none => rw [hrec] at h; simp at h
      | some p =>
        obtain ⟨l', r'⟩ := p
        rw [hrec] at h
        simp at h
        obtain ⟨hl, hr⟩ := h
        subst hl; subst hr
        simp only [List.cons_append, splitFirstNL, if_neg hc, List.append_eq]
        rw [ih l' r' extra hrec]

/-- A newline-free line followed by a newline splits at that newline. -/
theorem splitFirstNL_mk : ∀ x y : List Char, '\n' ∉ x →
    splitFirstNL (x ++ '\n' :: y) = some (x, y) := by
  intro x
  induction x with
  | nil => intro y _; simp [splitFirstNL]
  | cons c rest ih =>
    intro y hmem
    simp only [List.mem_cons] at hmem
    push_neg at hmem
    obtain ⟨h1, h2⟩ := hmem
    simp only [List.cons_append, splitFirstNL, if_neg (Ne.symm h1), List.append_eq]
    rw [ih y h2]

/-- `consumeF` does not depend on the fuel once the fuel covers the
buffer length. -/
theorem consumeF_irrel : ∀ f1 f2 : Nat, ∀ buf : List Char,
    buf.length ≤ f1 → buf.length ≤ f2 → consumeF f1 buf = consumeF f2 buf := by
  intro f1
  induction f1 with
  | zero =>
    intro f2 buf h1 h2
    have hb : buf = [] := List.eq_nil_of_length_eq_zero (Nat.le_zero.mp h1)
    subst hb
    cases f2 <;> simp [consumeF, splitFirstNL]
  | succ f ih =>
    intro f2 buf h1 h2
    cases f2 with
    | zero =>
      have hb : buf = [] := List.eq_nil_of_length_eq_zero (Nat.le_zero.mp h2)
      subst hb
      simp [consumeF, splitFirstNL]
    | succ f2' =>
      simp only [consumeF]
      cases hs : splitFirstNL buf with
      | none => rfl
      | some p =>
        obtain ⟨l, r⟩ := p
        dsimp only
        obtain ⟨hbuf, _⟩ := splitFirstNL_eq buf l r hs
        have hlen : r.length + 1 ≤ buf.length := by
          rw [hbuf]; simp only [List.length_append, List.length_cons]; omega
        cases hp : processLine (pyRstripCR l) with
        | none => rfl
        | some evs =>
          dsimp only
          have e1 : r.length ≤ f := by omega
          have e2 : r.length ≤ f2' := by omega
          rw [ih f2' r e1 e2]

/-- Unfolding `consume` at a buffer whose first line is complete. -/
theorem consume_split : ∀ buf l r : List Char, splitFirstNL buf = some (l, r) →
    consume buf =
      match processLine (pyRstripCR l) with
      | none => (DecState.failed, [])
      | some evs => ((consume r).1, evs ++ (consume r).2) := by
  intro buf l r hs
  obtain ⟨hbuf, _⟩ := splitFirstNL_eq buf l r hs
  have hlen : buf.length = (l.length + r.length) + 1 := by
    rw [hbuf]; simp only [List.length_append, List.length_cons]; omega
  show consumeF buf.length buf = _
  rw [hlen]
  simp only [consumeF]
  rw [hs]
  dsimp only
  cases hp : processLine (pyRstripCR l) with
  | none => rfl
  | some evs =>
    dsimp only
    have hirr : consumeF (l.length + r.length) r = consumeF r.length r :=
      consumeF_irrel _ _ r (by omega) (le_refl _)
    simp only [consume]
    rw [hirr]

/-- Unfolding `consume` at a buffer with no complete line. -/
theorem consume_no_nl : ∀ buf : List Char, splitFirstNL buf = none →
    consume buf = (DecState.running buf, []) := by
  intro buf h
  cases buf with
  | nil => rfl
  | cons c rest =>
    show consumeF (c :: rest).length (c :: rest) = _
    simp only [List.length_cons, consumeF]
    rw [h]

/-- Processing a buffer extended by further input equals processing the
buffer and then continuing with the input: the source's line-extraction
loop is insensitive to where chunk boundaries fall. -/
theorem consumeF_append : ∀ fuel : Nat, ∀ buf extra : List Char,
    buf.length ≤ fuel →
    consume (buf ++ extra) = consumeFrom (consumeF fuel buf) extra := by
  intro fuel
  induction fuel with
  | zero =>
    intro buf extra h
    have hb : buf = [] := List.eq_nil_of_length_eq_zero (Nat.le_zero.mp h)
    subst hb
    simp [consumeF, consumeFrom]
  | succ f ih =>
    intro buf extra h
    simp only [consumeF]
    cases hs : splitFirstNL buf with
    | none =>
      simp [consumeFrom]
    | some p =>
      obtain ⟨l, r⟩ := p
      dsimp only
      have hsa : splitFirstNL (buf ++ extra) = some (l, r ++ extra) :=
        splitFirstNL_append_some buf l r extra hs
      rw [consume_split (buf ++ extra) l (r ++ extra) hsa]
      obtain ⟨hbuf, _⟩ := splitFirstNL_eq buf l r hs
      have hlen : r.length + 1 ≤ buf.length := by
        rw [hbuf]; simp only [List.length_append, List.length_cons]; omega
      have hr : r.length ≤ f := by omega
      cases hp : processLine (pyRstripCR l) with
      | none => simp [consumeFrom]
      | some evs =>
        dsimp only
        rw [ih r extra hr]
        rcases hq : consumeF f r with ⟨st, ev2⟩
        cases st <;> simp [consumeFrom, List.append_assoc]

/-- Buffer-level chunk-boundary insensitivity, stated via `consume`. -/
theorem consume_append : ∀ buf extra : List Char,
    consume (buf ++ extra) = consumeFrom (consume buf) extra := by
  intro buf extra
  exact consumeF_append buf.length buf extra (le_refl _)

/-- Feeding an empty chunk is a no-op in any state. -/
theorem feed_nil : ∀ st : DecState, feed st [] = (st, []) := by
  intro st
  cases st <;> rfl

/-- Feeding the concatenation of two chunks equals feeding them one
after the other, carrying the state, and concatenating the events. -/
theorem feed_append : ∀ st : DecState, ∀ a b : List Char,
    feed st (a ++ b) =
      ((feed (feed st a).1 b).1, (feed st a).2 ++ (feed (feed st a).1 b).2) := by
  intro st a b
  cases st with
  | failed => simp [feed]
  | running buf =>
    by_cases ha : a = []
    · subst ha
      rw [List.nil_append]
      rw [feed_nil (DecState.running buf)]
      simp
    · by_cases hb : b = []
      · subst hb
        rw [List.append_nil]
        rw [feed_nil (feed (DecState.running buf) a).1]
        simp
      · have hab : a ++ b ≠ [] := fun h => ha (List.append_eq_nil.mp h).1
        have h1 : feed (DecState.running buf) (a ++ b) = consume (buf ++ (a ++ b)) := by
          simp [feed, List.isEmpty_iff, hab]
        have h2 : feed (DecState.running buf) a = consume (buf ++ a) := by
          simp [feed, List.isEmpty_iff, ha]
        rw [h1, h2]
        rw [show buf ++ (a ++ b) = (buf ++ a) ++ b by simp [List.append_assoc]]
        rw [consume_append (buf ++ a) b]
        rcases hq : consume (buf ++ a) with ⟨st2, ev2⟩
        cases st2 with
        | failed => simp [consumeFrom, feed]
        | running rem =>
          simp [consumeFrom, feed, List.isEmpty_iff, hb]

/-- Feeding any list of chunks equals feeding their concatenation as a
single chunk. -/
theorem feedAll_join : ∀ chunks : List (List Char), ∀ st : DecState,
    feedAll st chunks = feed st chunks.flatten := by
  intro chunks
  induction chunks with
  | nil =>
    intro st
    simp only [List.flatten_nil]
    rw [feed_nil st]
    rfl
  | cons c rest ih =>
    intro st
    simp only [feedAll, List.flatten_cons]
    rw [feed_append st c rest.flatten]
    rw [ih (feed st c).1]

/-- Python `strip` of a string whose first character is not whitespace is
nonempty. -/
theorem pyStrip_cons_not_space : ∀ c : Char, ∀ cs : List Char,
    pyIsSpace c = false → (pyStrip (c :: cs)).isEmpty = false := by
  intro c cs h
  simp only [pyStrip, pyLstrip, pyRstrip, List.dropWhile_cons, h, Bool.false_eq_true,
    if_false]
  rw [List.isEmpty_eq_false]
  intro habs
  rw [List.reverse_eq_nil_iff] at habs
  rw [List.dropWhile_eq_nil_iff] at habs
  have hc := habs c (by simp)
  rw [h] at hc
  exact Bool.noConfusion hc

/-- Dropping trailing carriage returns from a string not ending in one
does nothing to its reversal. -/
theorem dropCR_reverse : ∀ cs : List Char, cs.getLast? ≠ some '\r' →
    cs.reverse.dropWhile (fun c => c == '\r') = cs.reverse := by
  intro cs h
  cases hrev : cs.reverse with
  | nil => rfl
  | cons c t =>
    have hc : (c == '\r') = false := by
      rw [beq_eq_false_iff_ne]
      intro hceq
      apply h
      rw [← List.head?_reverse, hrev, hceq]
      rfl
    rw [List.dropWhile_cons, hc]
    simp

/-- `rstrip('\r')` of a string not ending in a carriage return is the
identity. -/
theorem pyRstripCR_eq_self : ∀ cs : List Char, cs.getLast? ≠ some '\r' →
    pyRstripCR cs = cs := by
  intro cs h
  unfold pyRstripCR
  rw [dropCR_reverse cs h, List.reverse_reverse]

/-- Dropping while a predicate holds skips a replicated satisfying
character. -/
theorem dropWhile_replicate_append : ∀ k : Nat, ∀ c : Char, ∀ p : Char → Bool,
    ∀ l : List Char, p c = true →
    (List.replicate k c ++ l).dropWhile p = l.dropWhile p := by
  intro k
  induction k with
  | zero => intro c p l _; rfl
  | succ n ih =>
    intro c p l hp
    rw [List.replicate_succ, List.cons_append, List.dropWhile_cons, hp]
    simp only [if_true]
    exact ih c p l hp

/-- `rstrip('\r')` removes every trailing carriage return, however many,
and nothing else. -/
theorem pyRstripCR_drops_all : ∀ cs : List Char, ∀ k : Nat,
    cs.getLast? ≠ some '\r' →
    pyRstripCR (cs ++ List.replicate k '\r') = cs := by
  intro cs k h
  unfold pyRstripCR
  rw [List.reverse_append, List.reverse_replicate]
  rw [dropWhile_replicate_append k '\r' _ cs.reverse (by rfl)]
  rw [dropCR_reverse cs h, List.reverse_reverse]

/-- Unfolding `pyReplaceBSN` at a head that does not begin a backslash-n
sequence. -/
theorem pyReplaceBSN_cons_ne : ∀ c : Char, ∀ rest : List Char,
    (c = '\\' → rest.head? ≠ some 'n') →
    pyReplaceBSN (c :: rest) = c :: pyReplaceBSN rest := by
  intro c rest h
  by_cases hc : c = '\\'
  · subst hc
    cases rest with
    | nil => rfl
    | cons c2 r2 =>
      by_cases hc2 : c2 = 'n'
      · subst hc2
        exact absurd rfl (h rfl)
      · rw [pyReplaceBSN.eq_def]
        split
        · rename_i heq; exact List.noConfusion heq
        · rename_i heq
          injection heq with e1 e2
          injection e2 with e3 _
          exact absurd e3 hc2
        · rename_i heq
          injection heq with e1 e2
          rw [e1, e2]
  · rw [pyReplaceBSN.eq_def]
    split
    · rename_i heq; exact List.noConfusion heq
    · rename_i heq
      injection heq with e1 _
      exact absurd e1 hc
    · rename_i heq
      injection heq with e1 e2
      rw [e1, e2]

/-- Unfolding `bsnFree` at a head that does not begin a backslash-n
sequence. -/
theorem bsnFree_cons_ne : ∀ c : Char, ∀ rest : List Char,
    (c = '\\' → rest.head? ≠ some 'n') →
    bsnFree (c :: rest) = bsnFree rest := by
  intro c rest h
  by_cases hc : c = '\\'
  · subst hc
    cases rest with
    | nil => rfl
    | cons c2 r2 =>
      by_cases hc2 : c2 = 'n'
      · subst hc2
        exact absurd rfl (h rfl)
      · rw [bsnFree.eq_def]
        split
        · rename_i heq; exact List.noConfusion heq
        · rename_i heq
          injection heq with e1 e2
          injection e2 with e3 _
          exact absurd e3 hc2
        · rename_i heq
          injection heq with _ e2
          rw [e2]
  · rw [bsnFree.eq_def]
    split
    · rename_i heq; exact List.noConfusion heq
    · rename_i heq
      injection heq with e1 _
      exact absurd e1 hc
    · rename_i heq
      injection heq with _ e2
      rw [e2]

/-- On a string with no backslash-n sequence, the unescaping replacement
is the identity. -/
theorem pyReplaceBSN_id : ∀ cs : List Char, bsnFree cs = true →
    pyReplaceBSN cs = cs := by
  intro cs
  induction cs with
  | nil => intro _; rfl
  | cons c rest ih =>
    intro h
    have hg : c = '\\' → rest.head? ≠ some 'n' := by
      intro hc hh
      subst hc
      cases rest with
      | nil => exact Option.noConfusion hh
      | cons c2 r2 =>
        injection hh with he
        subst he
        exact Bool.noConfusion h
    rw [pyReplaceBSN_cons_ne c rest hg]
    rw [bsnFree_cons_ne c rest hg] at h
    rw [ih h]

/-- Processing any line of the form `data:` + rest reaches the data
branch: terminator check on the stripped payload, then backslash-n
unescaping, then the JSON parse attempt with plain-text fallback. -/
theorem processLine_data : ∀ r : List Char,
    processLine (("data:").data ++ r) =
      (if dataPayload (("data:").data ++ r) = ("[DONE]").data then
        some [SseEvent.terminator]
       else
        match loads (pyReplaceBSN (dataPayload (("data:").data ++ r))) with
        | some parsed => Option.map (fun e => [e]) (handleJsonData parsed)
        | none =>
          some [SseEvent.textPayload (pyReplaceBSN (dataPayload (("data:").data ++ r)))]) := by
  intro r
  have hline : ("data:").data ++ r = 'd' :: 'a' :: 't' :: 'a' :: ':' :: r := rfl
  rw [hline]
  have h1 : (pyStrip ('d' :: 'a' :: 't' :: 'a' :: ':' :: r)).isEmpty = false :=
    pyStrip_cons_not_space 'd' _ (by rfl)
  have h2 : pyStartsWith (("event:").data) ('d' :: 'a' :: 't' :: 'a' :: ':' :: r) = false := rfl
  have h3 : pyStartsWith (("data:").data) ('d' :: 'a' :: 't' :: 'a' :: ':' :: r) = true := by
    simp [pyStartsWith, List.isPrefixOf]
  simp only [processLine, h1, h2, h3, Bool.false_eq_true, if_false, if_true]

/-- The value printed by `_handle_json_data` for a dict is the dict
itself, on every one of its branches. -/
theorem handleJsonData_obj : ∀ kvs : List (List Char × Json),
    handleJsonData (Json.obj kvs) =
      some (SseEvent.structuredPayload (Json.obj kvs)) := by
  intro kvs
  simp only [handleJsonData, pyContains]
  split
  · rename_i h; exact Option.noConfusion h
  · rfl
  · split
    · rename_i h; exact Option.noConfusion h
    · rfl
    · split
      · rename_i h; exact Option.noConfusion h
      · rfl
      · rfl

/-- Whenever `_handle_json_data` returns normally, the single event it
emits is the parsed value itself. -/
theorem handleJsonData_shape : ∀ v : Json, ∀ e : SseEvent,
    handleJsonData v = some e → e = SseEvent.structuredPayload v := by
  intro v e h
  unfold handleJsonData at h
  split at h
  · exact Option.noConfusion h
  · split at h
    · injection h with h'; exact h'.symm
    · exact Option.noConfusion h
  · split at h
    · exact Option.noConfusion h
    · split at h
      · injection h with h'; exact h'.symm
      · exact Option.noConfusion h
    · split at h
      · exact Option.noConfusion h
      · split at h
        · injection h with h'; exact h'.symm
        · exact Option.noConfusion h
      · injection h with h'; exact h'.symm

/-- Claim C5: feeding any sequence of input characters split into chunks
at arbitrary boundaries produces exactly the same final state and the
same sequence of Decoded Events as feeding the whole sequence at once;
in particular feeding a concatenation equals feeding its two halves in
order with the state carried between the calls. -/
theorem c5_feed_composition :
    (∀ st : DecState, ∀ chunks : List (List Char),
      feedAll st chunks = feed st chunks.flatten) ∧
    (∀ st : DecState, ∀ a b : List Char,
      feed st (a ++ b) =
        ((feed (feed st a).1 b).1, (feed st a).2 ++ (feed (feed st a).1 b).2)) :=
  ⟨fun st chunks => feedAll_join chunks st, feed_append⟩

/-- Claim C6: on a `data:` line the decoder strips the five prefix
characters and then at most one leading space: a payload written with
one space after the colon is recovered verbatim, and a payload written
with two spaces keeps exactly one leading space. -/
theorem c6_single_space_strip : ∀ t : List Char,
    dataPayload (("data: ").data ++ t) = t ∧
    dataPayload (("data:  ").data ++ t) = ' ' :: t :=
  fun _ => ⟨rfl, rfl⟩

/-- When the line loop returns a running state, its buffer is the input
after the last newline (and in particular newline-free). -/
theorem consume_running_inv : ∀ n : Nat, ∀ buf rem : List Char,
    ∀ evs : List SseEvent,
    buf.length ≤ n → consumeF n buf = (DecState.running rem, evs) →
    '\n' ∉ rem ∧ (rem = buf ∨ ∃ pre, buf = pre ++ '\n' :: rem) := by
  intro n
  induction n with
  | zero =>
    intro buf rem evs h1 h2
    have hb : buf = [] := List.eq_nil_of_length_eq_zero (Nat.le_zero.mp h1)
    subst hb
    injection h2 with e1 e2
    injection e1 with e3
    subst e3
    exact ⟨by simp, Or.inl rfl⟩
  | succ f ih =>
    intro buf rem evs h1 h2
    simp only [consumeF] at h2
    cases hs : splitFirstNL buf with
    | none =>
      rw [hs] at h2
      dsimp only at h2
      injection h2 with e1 e2
      injection e1 with e3
      subst e3
      exact ⟨(splitFirstNL_none_iff buf).mp hs, Or.inl rfl⟩
    | some p =>
      obtain ⟨l, r⟩ := p
      rw [hs] at h2
      dsimp only at h2
      cases hp : processLine (pyRstripCR l) with
      | none =>
        rw [hp] at h2
        dsimp only at h2
        injection h2 with e1 _
        exact DecState.noConfusion e1
      | some evs2 =>
        rw [hp] at h2
        dsimp only at h2
        obtain ⟨hbuf, _⟩ := splitFirstNL_eq buf l r hs
        have hlen : r.length ≤ f := by
          rw [hbuf] at h1
          simp only [List.length_append, List.length_cons] at h1
          omega
        rcases hq : consumeF f r with ⟨st2, ev2⟩
        rw [hq] at h2
        dsimp only at h2
        injection h2 with e1 e2
        subst e1
        obtain ⟨hnl, hdec⟩ := ih r rem ev2 hlen hq
        refine ⟨hnl, Or.inr ?_⟩
        rcases hdec with hsame | ⟨pre, hpre⟩
        · exact ⟨l, by rw [hbuf, hsame]⟩
        · exact ⟨l ++ '\n' :: pre, by rw [hbuf, hpre]; simp⟩

/-- Claim C7: when a feed call that started from a newline-free buffer
returns with the decoder still running, the new buffer is newline-free
and consists of exactly the bytes after the last newline of the old
buffer followed by the chunk (every complete line has been split off and
processed). -/
theorem c7_buffer_invariant : ∀ buf chunk newBuf : List Char,
    ∀ evs : List SseEvent,
    '\n' ∉ buf →
    feed (DecState.running buf) chunk = (DecState.running newBuf, evs) →
    '\n' ∉ newBuf ∧
      (newBuf = buf ++ chunk ∨
        ∃ pre, buf ++ chunk = pre ++ '\n' :: newBuf) := by
  intro buf chunk newBuf evs hnl hfeed
  by_cases hc : chunk = []
  · subst hc
    rw [feed_nil] at hfeed
    injection hfeed with e1 e2
    injection e1 with e3
    subst e3
    exact ⟨hnl, Or.inl (by simp)⟩
  · have hronly : feed (DecState.running buf) chunk = consume (buf ++ chunk) := by
      simp [feed, List.isEmpty_iff, hc]
    rw [hronly] at hfeed
    exact consume_running_inv (buf ++ chunk).length (buf ++ chunk) newBuf evs
      (le_refl _) hfeed

/-- Concrete instance of claim C7: feeding the chunk ab, newline, cd to
a fresh decoder leaves the buffer cd, which is newline-free and is the
content after the last newline of the input. -/
theorem c7_buffer_invariant_witness :
    '\n' ∉ (("cd").data) ∧
      ((("cd").data = [] ++ (("ab\ncd").data)) ∨
        ∃ pre, [] ++ (("ab\ncd").data) = pre ++ '\n' :: (("cd").data)) :=
  c7_buffer_invariant [] (("ab\ncd").data) (("cd").data)
    [SseEvent.rawLine (("ab").data)] (by simp) (by rfl)

/-- Claim C8: a line that is nonblank after trimming and starts with
none of the prefixes event:, data:, or colon is never dropped: it is
emitted as exactly one RawLine event carrying the full line. -/
theorem c8_raw_line_passthrough : ∀ line : List Char,
    (pyStrip line).isEmpty = false →
    pyStartsWith (("event:").data) line = false →
    pyStartsWith (("data:").data) line = false →
    pyStartsWith ((":").data) line = false →
    processLine line = some [SseEvent.rawLine line] := by
  intro line h1 h2 h3 h4
  simp only [processLine, h1, h2, h3, h4, Bool.false_eq_true, if_false]

/-- Concrete instance of claim C8: the unrecognized line hello is
surfaced as one RawLine event. -/
theorem c8_raw_line_passthrough_witness :
    processLine (("hello").data) = some [SseEvent.rawLine (("hello").data)] :=
  c8_raw_line_passthrough (("hello").data) (by rfl) (by rfl) (by rfl) (by rfl)

/-- Claim C9: feeding an empty chunk is a no-op in every decoder state:
the buffer is unchanged and no event is emitted, so the empty chunk is
an identity element for feed composition. -/
theorem c9_empty_chunk_noop : ∀ st : DecState, feed st [] = (st, []) :=
  feed_nil

/-- Claim C10: every trailing carriage return of an extracted line is
stripped before classification — a line followed by any number of
trailing carriage returns decodes exactly like the bare line — while
carriage returns elsewhere in the line are preserved (the stripped line
is the original content verbatim). -/
theorem c10_rstrip_all_cr : ∀ cs : List Char, ∀ k : Nat,
    '\n' ∉ cs → cs.getLast? ≠ some '\r' →
    pyRstripCR (cs ++ List.replicate k '\r') = cs ∧
    feed (DecState.running []) ((cs ++ List.replicate k '\r') ++ ['\n']) =
      feed (DecState.running []) (cs ++ ['\n']) := by
  intro cs k hnl hcr
  have hstrip := pyRstripCR_drops_all cs k hcr
  refine ⟨hstrip, ?_⟩
  have hnlr : '\n' ∉ cs ++ List.replicate k '\r' := by
    intro hmem
    rcases List.mem_append.mp hmem with h | h
    · exact hnl h
    · exact absurd (List.eq_of_mem_replicate h) (by decide)
  have hne1 : (cs ++ List.replicate k '\r') ++ ['\n'] ≠ [] := by simp
  have hne2 : cs ++ ['\n'] ≠ [] := by simp
  have hf1 : feed (DecState.running []) ((cs ++ List.replicate k '\r') ++ ['\n']) =
      consume ((cs ++ List.replicate k '\r') ++ ['\n']) := by
    simp [feed, List.isEmpty_iff, hne1]
  have hf2 : feed (DecState.running []) (cs ++ ['\n']) = consume (cs ++ ['\n']) := by
    simp [feed, List.isEmpty_iff, hne2]
  rw [hf1, hf2]
  rw [consume_split _ _ _ (splitFirstNL_mk (cs ++ List.replicate k '\r') [] hnlr)]
  rw [consume_split _ _ _ (splitFirstNL_mk cs [] hnl)]
  rw [hstrip, pyRstripCR_eq_self cs hcr]

/-- Concrete instance of claim C10: two trailing carriage returns are
both stripped while the interior carriage return survives, and the
decode is unchanged. -/
theorem c10_rstrip_all_cr_witness :
    pyRstripCR ((("a\rb").data) ++ List.replicate 2 '\r') = (("a\rb").data) ∧
    feed (DecState.running []) (((("a\rb").data) ++ List.replicate 2 '\r') ++ ['\n']) =
      feed (DecState.running []) ((("a\rb").data) ++ ['\n']) :=
  c10_rstrip_all_cr (("a\rb").data) 2 (by decide) (by decide)

/-- Claim C4: for a data line whose stripped payload is not the
terminator sentinel, the backslash-n unescaping happens before the JSON
parse attempt — the parse is attempted on the unescaped text — and a
payload whose unescaped text is not valid JSON is emitted as one
TextPayload carrying that unescaped text. -/
theorem c4_unescape_before_parse : ∀ r p : List Char,
    dataPayload (("data:").data ++ r) = p →
    p ≠ ("[DONE]").data →
    ((loads (pyReplaceBSN p) = none →
        processLine (("data:").data ++ r) =
          some [SseEvent.textPayload (pyReplaceBSN p)]) ∧
     (∀ v : Json, loads (pyReplaceBSN p) = some v →
        processLine (("data:").data ++ r) =
          Option.map (fun e => [e]) (handleJsonData v))) := by
  intro r p hp hne
  rw [processLine_data r, hp, if_neg hne]
  constructor
  · intro hl
    rw [hl]
  · intro v hl
    rw [hl]

/-- Concrete instance of claim C4: the payload hello backslash-n world
is unescaped to contain a real newline before the parse attempt, fails
to parse, and is emitted as a TextPayload of the unescaped text. -/
theorem c4_unescape_before_parse_witness :
    processLine (("data: hello\\nworld").data) =
      some [SseEvent.textPayload (("hello\nworld").data)] :=
  (c4_unescape_before_parse ((" hello\\nworld").data) (("hello\\nworld").data)
    (by rfl) (by decide)).1 (by rfl)

/-- Counterexample to claim C1 as stated: the payload is a valid JSON
object (its parse is shown), yet feeding the data line does not emit a
StructuredPayload with that object — the backslash-n escape inside the
JSON string is unescaped to a raw newline before the parse attempt, the
strict parser then rejects the control character, and the line falls
back to one TextPayload. -/
theorem c1_counterexample :
    loads (("\x7b\"k\": \"a\\nb\"\x7d").data) =
      some (Json.obj [((("k").data), Json.str (("a\nb").data))]) ∧
    decode (("data: \x7b\"k\": \"a\\nb\"\x7d\n").data) =
      (DecState.running [], [SseEvent.textPayload (("\x7b\"k\": \"a\nb\"\x7d").data)]) ∧
    decode (("data: \x7b\"k\": \"a\\nb\"\x7d\n").data) ≠
      (DecState.running [],
        [SseEvent.structuredPayload (Json.obj [((("k").data), Json.str (("a\nb").data))])]) := by
  refine ⟨rfl, rfl, ?_⟩
  rw [show decode (("data: \x7b\"k\": \"a\\nb\"\x7d\n").data) =
      (DecState.running [], [SseEvent.textPayload (("\x7b\"k\": \"a\nb\"\x7d").data)]) from rfl]
  simp

/-- Claim C1 amended: for every payload that is a valid JSON object text
containing no newline and no two-character backslash-n sequence (and not
ending in a carriage return), feeding the data line in arbitrarily many
arbitrarily split chunks emits exactly one StructuredPayload carrying
the parsed object and no other event. -/
theorem c1_amended : ∀ P : List Char, ∀ o : List (List Char × Json),
    ∀ chunks : List (List Char),
    '\n' ∉ P → bsnFree P = true → P.getLast? ≠ some '\r' →
    loads P = some (Json.obj o) →
    chunks.flatten = ("data: ").data ++ P ++ ['\n'] →
    feedAll (DecState.running []) chunks =
      (DecState.running [], [SseEvent.structuredPayload (Json.obj o)]) := by
  intro P o chunks hnl hbsn hcr hld hflat
  rw [feedAll_join chunks _, hflat]
  have hPne : P ≠ [] := by
    intro h
    subst h
    rw [show loads ([] : List Char) = none from rfl] at hld
    exact Option.noConfusion hld
  have hne : ("data: ").data ++ P ++ ['\n'] ≠ [] := by simp
  have h1 : feed (DecState.running []) (("data: ").data ++ P ++ ['\n']) =
      consume (("data: ").data ++ P ++ ['\n']) := by
    simp [feed, List.isEmpty_iff, hne]
  rw [h1]
  have hnl2 : '\n' ∉ ("data: ").data ++ P := by
    intro hmem
    rcases List.mem_append.mp hmem with h | h
    · exact absurd h (by decide)
    · exact hnl h
  rw [consume_split _ _ _ (splitFirstNL_mk (("data: ").data ++ P) [] hnl2)]
  have hglast : (("data: ").data ++ P).getLast? ≠ some '\r' := by
    rw [List.getLast?_append_of_ne_nil _ hPne]
    exact hcr
  rw [pyRstripCR_eq_self _ hglast]
  rw [show ("data: ").data ++ P = ("data:").data ++ (' ' :: P) from rfl]
  rw [processLine_data (' ' :: P)]
  rw [show dataPayload (("data:").data ++ (' ' :: P)) = P from rfl]
  have hPd : P ≠ ("[DONE]").data := by
    intro h
    rw [h] at hld
    rw [show loads (("[DONE]").data) = none from rfl] at hld
    exact Option.noConfusion hld
  rw [if_neg hPd]
  rw [pyReplaceBSN_id P hbsn, hld]
  dsimp only
  rw [handleJsonData_obj o]
  rfl

/-- Concrete instance of amended claim C1: the spec's own example chunks
dat, then the rest of the line, then the newline, yield exactly one
StructuredPayload with the parsed object. -/
theorem c1_amended_witness :
    feedAll (DecState.running [])
      [("dat").data, ("a: \x7b\"content\": \"hi\"\x7d").data, ("\n").data] =
      (DecState.running [],
        [SseEvent.structuredPayload
          (Json.obj [((("content").data), Json.str (("hi").data))])]) :=
  c1_amended (("\x7b\"content\": \"hi\"\x7d").data)
    [((("content").data), Json.str (("hi").data))]
    [("dat").data, ("a: \x7b\"content\": \"hi\"\x7d").data, ("\n").data]
    (by decide) (by rfl) (by decide) (by rfl) (by rfl)

/-- Counterexample to claim C2 as stated: the payload 5 is valid JSON
and not a JSON object, yet the line does not fall through to plain-text
handling and emits no TextPayload — the membership test in the JSON
handler raises a TypeError, which escapes the parsing loop and kills the
stream: the decoder ends failed with no event at all. -/
theorem c2_counterexample :
    loads (("5").data) = some (Json.num 5) ∧
    isJsonObject (Json.num 5) = false ∧
    decode (("data: 5\n").data) = (DecState.failed, []) :=
  ⟨rfl, rfl, rfl⟩

/-- Claim C2 amended: a data line whose unescaped payload is valid JSON
is never emitted as a TextPayload, whether or not the value is an
object: the parsed value goes to the JSON handler, which never produces
a TextPayload, and which raises (aborting the stream, with no event for
the line) whenever the value is a bare number; arrays and strings reach
the handler's generic branches instead of plain-text handling. -/
theorem c2_amended : ∀ s : List Char, ∀ v : Json,
    loads (pyReplaceBSN s) = some v →
    isJsonObject v = false →
    (processLine (("data: ").data ++ s) =
      Option.map (fun e => [e]) (handleJsonData v)) ∧
    (∀ t : List Char, handleJsonData v ≠ some (SseEvent.textPayload t)) ∧
    (∀ n : Int, v = Json.num n → handleJsonData v = none) := by
  intro s v hl hobj
  refine ⟨?_, ?_, ?_⟩
  · rw [show ("data: ").data ++ s = ("data:").data ++ (' ' :: s) from rfl]
    rw [processLine_data (' ' :: s)]
    rw [show dataPayload (("data:").data ++ (' ' :: s)) = s from rfl]
    have hsd : s ≠ ("[DONE]").data := by
      intro h
      subst h
      rw [show pyReplaceBSN (("[DONE]").data) = ("[DONE]").data from rfl] at hl
      rw [show loads (("[DONE]").data) = none from rfl] at hl
      exact Option.noConfusion hl
    rw [if_neg hsd, hl]
  · intro t habs
    exact SseEvent.noConfusion (handleJsonData_shape v _ habs)
  · intro n hv
    subst hv
    rfl

/-- Concrete instance of amended claim C2: the JSON array payload is
routed through the JSON handler (and in fact emitted as a structured
payload), not as a TextPayload. -/
theorem c2_amended_witness :
    processLine (("data: [1, 2]").data) =
      Option.map (fun e => [e]) (handleJsonData (Json.arr [Json.num 1, Json.num 2])) :=
  (c2_amended (("[1, 2]").data) (Json.arr [Json.num 1, Json.num 2])
    (by rfl) (by rfl)).1

/-- Counterexample to claim C3 as stated: after the Terminator line a
further data line still produces an event — decoding does not end at
the Terminator. -/
theorem c3_counterexample :
    decode (("data: [DONE]\ndata: hi\n").data) =
      (DecState.running [],
        [SseEvent.terminator, SseEvent.textPayload (("hi").data)]) := rfl

/-- Claim C3 amended: feeding the terminator line emits exactly one
Terminator event and no TextPayload or StructuredPayload for that line,
but decoding does not end: any input fed after that line is decoded
exactly as a fresh stream would decode it, its events following the
Terminator. -/
theorem c3_amended :
    decode (("data: [DONE]\n").data) = (DecState.running [], [SseEvent.terminator]) ∧
    (∀ rest : List Char,
      decode ((("data: [DONE]\n").data) ++ rest) =
        ((decode rest).1, SseEvent.terminator :: (decode rest).2)) := by
  constructor
  · rfl
  · intro rest
    by_cases hr : rest = []
    · subst hr
      rw [List.append_nil]
      rfl
    · have hne : ("data: [DONE]\n").data ++ rest ≠ [] := by simp
      have h1 : decode ((("data: [DONE]\n").data) ++ rest) =
          consume ((("data: [DONE]\n").data) ++ rest) := by
        simp [decode, feed, List.isEmpty_iff, hne]
      rw [h1]
      rw [consume_append (("data: [DONE]\n").data) rest]
      rw [show consume (("data: [DONE]\n").data) =
          (DecState.running [], [SseEvent.terminator]) from rfl]
      have h2 : decode rest = consume rest := by
        simp [decode, feed, List.isEmpty_iff, hr]
      rw [h2]
      rfl
